import Mathlib

/-!
Verification of the chirpy embedded document store (package database,
file db.go with refresh-token support) and the chirp-cleaning handler
logic from service.go.

The Go code is shallowly embedded:
* Go maps (map[int]Chirp, map[int]AuthUser, map[string]int,
  map[string]RefreshToken) become association lists with
  lookup / insert / delete functions that mirror Go map semantics
  (at most one binding per key is maintained by the operations).
* Go int becomes Int (IDs never approach overflow in any claim).
* The opaque bcrypt password digest ([]byte) becomes a String; its
  base64 JSON encoding is modelled as the identity on that string.
* time.Time becomes an Int instant; time.Now() is passed in as an
  explicit now parameter, and the RFC3339 JSON text of a time value is
  modelled as a JSON number carrying the instant.
* The backing file becomes an Option Json field: none models a missing
  file, some j models a file holding the JSON document j.  writeDB
  takes an explicit writeOk flag modelling success or failure of
  os.WriteFile; os.ReadFile of an existing file always succeeds.
* encoding/json is modelled by a Json syntax tree: json.Marshal of the
  DBRepresentation struct produces an object with the struct tag field
  names, maps marshalling to objects keyed by the strconv rendering of
  the key; Decoder.Decode into the existing db.data is modelled
  faithfully as a field-wise merge: fields present in the document are
  decoded (map fields merge entry-wise into the existing map, scalar
  fields are overwritten), fields absent from the document keep their
  in-memory value, as encoding/json does.
-/

/-- Chirp record (type Chirp in db.go): id, author_id, body. -/
structure Chirp where
  id : Int
  authorID : Int
  body : String
deriving Repr, DecidableEq

/-- User record (type User in db.go): id, email. -/
structure User where
  id : Int
  email : String
deriving Repr, DecidableEq

/-- AuthUser (type AuthUser in db.go): embedded User plus password digest. -/
structure AuthUser where
  user : User
  password : String
deriving Repr, DecidableEq

/-- RefreshToken record (type RefreshToken in db.go): token, user ID,
expiration instant. -/
structure RefreshToken where
  token : String
  userID : Int
  expiration : Int
deriving Repr, DecidableEq

/-- Association list modelling a Go map. -/
abbrev GoMap (κ ν : Type) := List (κ × ν)

/-- Go map read m[k]: the value at key k, if present. -/
def mapLookup [DecidableEq κ] (m : GoMap κ ν) (k : κ) : Option ν :=
  match m with
  | [] => none
  | (k₁, v₁) :: rest => if k = k₁ then some v₁ else mapLookup rest k

/-- Go map write m[k] = v: replace the binding of k if present, else add it. -/
def mapInsert [DecidableEq κ] (m : GoMap κ ν) (k : κ) (v : ν) : GoMap κ ν :=
  match m with
  | [] => [(k, v)]
  | (k₁, v₁) :: rest =>
    if k = k₁ then (k, v) :: rest else (k₁, v₁) :: mapInsert rest k v

/-- Go delete(m, k): remove any binding of k (a no-op when k is absent). -/
def mapDelete [DecidableEq κ] (m : GoMap κ ν) (k : κ) : GoMap κ ν :=
  match m with
  | [] => []
  | (k₁, v₁) :: rest =>
    if k = k₁ then mapDelete rest k else (k₁, v₁) :: mapDelete rest k

/-- Keys of a modelled map. -/
def mapKeys (m : GoMap κ ν) : List κ := m.map (fun p => p.1)

/-- In-memory snapshot (type DBRepresentation in db.go). -/
structure DBRepresentation where
  lastChirpID : Int
  lastUserID : Int
  chirps : GoMap Int Chirp
  users : GoMap Int AuthUser
  userEmailIndex : GoMap String Int
  refreshTokens : GoMap String RefreshToken
deriving Repr, DecidableEq

/-- The zero value of DBRepresentation used by NewDB. -/
def emptyRep : DBRepresentation :=
  { lastChirpID := 0, lastUserID := 0, chirps := [], users := [],
    userEmailIndex := [], refreshTokens := [] }

/-- Error outcomes of store operations: the sentinel errors
ErrDoesNotExist and ErrAlreadyExists of db.go, plus the distinguished
I/O conditions surfaced by loadDB and writeDB. -/
inductive DBError where
  | doesNotExist
  | alreadyExists
  | fileNotExist
  | decodeError
  | ioError
deriving Repr, DecidableEq

/-- JSON documents as produced and consumed by encoding/json for the
snapshot: numbers, strings and objects are the only shapes that occur. -/
inductive Json where
  | num (n : Int)
  | str (s : String)
  | obj (fields : List (String × Json))

instance {ε α : Type} [DecidableEq ε] [DecidableEq α] :
    DecidableEq (Except ε α) := fun x y =>
  match x, y with
  | .ok a, .ok b =>
    if h : a = b then isTrue (by rw [h]) else isFalse (by simp [h])
  | .error a, .error b =>
    if h : a = b then isTrue (by rw [h]) else isFalse (by simp [h])
  | .ok _, .error _ => isFalse (by simp)
  | .error _, .ok _ => isFalse (by simp)

/-- Insertion step of the sort performed by sort.Slice with the
comparison fun i j. less means key of element i less than key of
element j. -/
def insertSorted (key : α → Int) (x : α) : List α → List α
  | [] => [x]
  | y :: ys => if key x < key y then x :: y :: ys else y :: insertSorted key x ys

/-- Model of sort.Slice with an ascending integer-key comparison. -/
def sortByKey (key : α → Int) : List α → List α
  | [] => []
  | x :: xs => insertSorted key x (sortByKey key xs)

/-- Decimal digit characters of a natural number, most significant first,
as produced by strconv for map keys in json.Marshal. -/
def natToDigits (n : Nat) : List Char :=
  if h : n < 10 then [Char.ofNat (48 + n)]
  else natToDigits (n / 10) ++ [Char.ofNat (48 + n % 10)]
  decreasing_by
    exact Nat.div_lt_self (by omega) (by omega)

/-- The strconv rendering of a Go int used as a JSON object key. -/
def intKey (i : Int) : String :=
  if i < 0 then String.mk (Char.ofNat 45 :: natToDigits i.natAbs)
  else String.mk (natToDigits i.toNat)

/-- Numeric value of a decimal digit character, none for non-digits. -/
def digitToNat (c : Char) : Option Nat :=
  if 48 ≤ c.toNat ∧ c.toNat ≤ 57 then some (c.toNat - 48) else none

/-- Left-to-right accumulation of decimal digits. -/
def parseNatFrom (acc : Nat) : List Char → Option Nat
  | [] => some acc
  | c :: cs =>
    match digitToNat c with
    | some d => parseNatFrom (acc * 10 + d) cs
    | none => none

/-- Parse of a JSON object key back into a Go int, as json.Unmarshal
does for integer-keyed maps. -/
def parseIntKey (s : String) : Option Int :=
  match s.data with
  | [] => none
  | c :: rest =>
    if c = Char.ofNat 45 then
      if rest = [] then none
      else (parseNatFrom 0 rest).map (fun n => -(Int.ofNat n))
    else (parseNatFrom 0 (c :: rest)).map Int.ofNat

/-- json.Marshal of a Chirp value (tags id, author_id, body). -/
def encodeChirp (c : Chirp) : Json :=
  .obj [("id", .num c.id), ("author_id", .num c.authorID), ("body", .str c.body)]

/-- json.Marshal of an AuthUser value: the embedded User fields are
flattened, followed by the password digest. -/
def encodeAuthUser (u : AuthUser) : Json :=
  .obj [("id", .num u.user.id), ("email", .str u.user.email),
        ("password", .str u.password)]

/-- json.Marshal of a RefreshToken value: the struct has no tags, so
the Go field names are used. -/
def encodeRefreshToken (t : RefreshToken) : Json :=
  .obj [("Token", .str t.token), ("UserID", .num t.userID),
        ("Expiration", .num t.expiration)]

/-- json.Marshal of the whole snapshot, writing the six tagged fields
of DBRepresentation; map fields become objects whose keys are the
rendered map keys, entries in map order. -/
def encodeDB (d : DBRepresentation) : Json :=
  .obj [("last_chirp_id", .num d.lastChirpID),
        ("last_user_id", .num d.lastUserID),
        ("chirps", .obj (d.chirps.map (fun p => (intKey p.1, encodeChirp p.2)))),
        ("users", .obj (d.users.map (fun p => (intKey p.1, encodeAuthUser p.2)))),
        ("user_email_idx", .obj (d.userEmailIndex.map (fun p => (p.1, Json.num p.2)))),
        ("refresh_tokens", .obj (d.refreshTokens.map (fun p => (p.1, encodeRefreshToken p.2))))]

/-- Decode a JSON value expected to be a number. -/
def asInt : Json → Option Int
  | .num n => some n
  | _ => none

/-- Decode a JSON value expected to be a string. -/
def asStr : Json → Option String
  | .str s => some s
  | _ => none

/-- One field of a Chirp object, decoded into the value built so far;
unknown keys are ignored as encoding/json does. -/
def decodeChirpField (c : Chirp) (key : String) (v : Json) : Option Chirp :=
  if key = "id" then (asInt v).map (fun n => { c with id := n })
  else if key = "author_id" then (asInt v).map (fun n => { c with authorID := n })
  else if key = "body" then (asStr v).map (fun s => { c with body := s })
  else some c

/-- json.Unmarshal of a Chirp map element: decoding starts from the
zero value and processes the object fields in order. -/
def decodeChirp (j : Json) : Option Chirp :=
  match j with
  | .obj fs => fs.foldlM (fun c kv => decodeChirpField c kv.1 kv.2)
      { id := 0, authorID := 0, body := "" }
  | _ => none

/-- One field of an AuthUser object. -/
def decodeAuthUserField (u : AuthUser) (key : String) (v : Json) : Option AuthUser :=
  if key = "id" then (asInt v).map (fun n => { u with user := { u.user with id := n } })
  else if key = "email" then (asStr v).map (fun s => { u with user := { u.user with email := s } })
  else if key = "password" then (asStr v).map (fun s => { u with password := s })
  else some u

/-- json.Unmarshal of an AuthUser map element. -/
def decodeAuthUser (j : Json) : Option AuthUser :=
  match j with
  | .obj fs => fs.foldlM (fun u kv => decodeAuthUserField u kv.1 kv.2)
      { user := { id := 0, email := "" }, password := "" }
  | _ => none

/-- One field of a RefreshToken object. -/
def decodeRefreshTokenField (t : RefreshToken) (key : String) (v : Json) :
    Option RefreshToken :=
  if key = "Token" then (asStr v).map (fun s => { t with token := s })
  else if key = "UserID" then (asInt v).map (fun n => { t with userID := n })
  else if key = "Expiration" then (asInt v).map (fun n => { t with expiration := n })
  else some t

/-- json.Unmarshal of a RefreshToken map element. -/
def decodeRefreshToken (j : Json) : Option RefreshToken :=
  match j with
  | .obj fs => fs.foldlM (fun t kv => decodeRefreshTokenField t kv.1 kv.2)
      { token := "", userID := 0, expiration := 0 }
  | _ => none

/-- json.Unmarshal of a JSON object into an existing integer-keyed Go
map: the existing map is kept and the decoded entries are stored into
it, each element decoded from the zero value. -/
def decodeIntMapInto (decVal : Json → Option ν) (base : GoMap Int ν) (j : Json) :
    Option (GoMap Int ν) :=
  match j with
  | .obj fs =>
    fs.foldlM (fun acc kv => do
      let k ← parseIntKey kv.1
      let v ← decVal kv.2
      pure (mapInsert acc k v)) base
  | _ => none

/-- json.Unmarshal of a JSON object into an existing string-keyed Go map. -/
def decodeStrMapInto (decVal : Json → Option ν) (base : GoMap String ν) (j : Json) :
    Option (GoMap String ν) :=
  match j with
  | .obj fs =>
    fs.foldlM (fun acc kv => do
      let v ← decVal kv.2
      pure (mapInsert acc kv.1 v)) base
  | _ => none

/-- One top-level field of the snapshot document, decoded into the
existing representation (merge semantics of Decoder.Decode into
db.data). -/
def decodeDBField (d : DBRepresentation) (key : String) (v : Json) :
    Option DBRepresentation :=
  if key = "last_chirp_id" then (asInt v).map (fun n => { d with lastChirpID := n })
  else if key = "last_user_id" then (asInt v).map (fun n => { d with lastUserID := n })
  else if key = "chirps" then
    (decodeIntMapInto decodeChirp d.chirps v).map (fun m => { d with chirps := m })
  else if key = "users" then
    (decodeIntMapInto decodeAuthUser d.users v).map (fun m => { d with users := m })
  else if key = "user_email_idx" then
    (decodeStrMapInto asInt d.userEmailIndex v).map (fun m => { d with userEmailIndex := m })
  else if key = "refresh_tokens" then
    (decodeStrMapInto decodeRefreshToken d.refreshTokens v).map
      (fun m => { d with refreshTokens := m })
  else some d

/-- Decoder.Decode(&db.data): fields present in the document are merged
into the existing representation; absent fields keep their value. -/
def decodeDBInto (base : DBRepresentation) (j : Json) : Option DBRepresentation :=
  match j with
  | .obj fs => fs.foldlM (fun d kv => decodeDBField d kv.1 kv.2) base
  | _ => none

/-- The store (type DB in db.go): the in-memory representation together
with the backing file contents; none models a missing file. -/
structure DB where
  data : DBRepresentation
  disk : Option Json

/-- loadDB: read the backing file and decode it into db.data (merge
semantics); a missing file is the distinguished not-exist error. -/
def loadDB (db : DB) : Except DBError DBRepresentation :=
  match db.disk with
  | none => .error .fileNotExist
  | some j =>
    match decodeDBInto db.data j with
    | some d => .ok d
    | none => .error .decodeError

/-- writeDB: marshal db.data and overwrite the backing file; the
writeOk flag models success or failure of os.WriteFile, on failure the
file keeps its previous contents. -/
def writeDB (db : DB) (writeOk : Bool) : Except DBError DB :=
  if writeOk then .ok { db with disk := some (encodeDB db.data) }
  else .error .ioError

/-- In-memory mutation step of CreateUser, after the reload and the
email-uniqueness check: next ID, insert into users and the email
index, advance the counter. -/
def createUserData (email : String) (pwHash : String) (d : DBRepresentation) :
    User × DBRepresentation :=
  let newUser : AuthUser :=
    { user := { id := d.lastUserID + 1, email := email }, password := pwHash }
  (newUser.user,
   { d with users := mapInsert d.users newUser.user.id newUser,
            userEmailIndex := mapInsert d.userEmailIndex email newUser.user.id,
            lastUserID := newUser.user.id })

/-- CreateUser in db.go: reload, reject an already-indexed email,
otherwise create and persist. -/
def CreateUser (email : String) (pwHash : String) (writeOk : Bool) (db : DB) :
    Except DBError User × DB :=
  match loadDB db with
  | .error e => (.error e, db)
  | .ok d =>
    match mapLookup d.userEmailIndex email with
    | some _ => (.error .alreadyExists, { db with data := d })
    | none =>
      let r := createUserData email pwHash d
      match writeDB { db with data := r.2 } writeOk with
      | .error e => (.error e, { db with data := r.2 })
      | .ok db₁ => (.ok r.1, db₁)

/-- GetUsers in db.go: collect the embedded User of every map value and
sort ascending by ID (read-only, no reload). -/
def GetUsers (d : DBRepresentation) : List User :=
  sortByKey (fun u => u.id) (d.users.map (fun p => p.2.user))

/-- GetAuthUserByEmail in db.go: resolve the email through the index,
then fetch the user record. -/
def GetAuthUserByEmail (d : DBRepresentation) (email : String) :
    Except DBError AuthUser :=
  match mapLookup d.userEmailIndex email with
  | none => .error .doesNotExist
  | some userID =>
    match mapLookup d.users userID with
    | none => .error .doesNotExist
    | some u => .ok u

/-- In-memory mutation step of UpdateUser for an existing record: drop
the old email index entry, overwrite email and digest in place, index
the new email. -/
def updateUserData (userID : Int) (email : String) (pwHash : String)
    (u : AuthUser) (d : DBRepresentation) : User × DBRepresentation :=
  let u₁ : AuthUser := { user := { id := u.user.id, email := email }, password := pwHash }
  (u₁.user,
   { d with users := mapInsert d.users userID u₁,
            userEmailIndex :=
              mapInsert (mapDelete d.userEmailIndex u.user.email) email u.user.id })

/-- UpdateUser in db.go: reload, fail for an unknown ID, otherwise
rewrite the record and the email index and persist. -/
def UpdateUser (userID : Int) (email : String) (pwHash : String) (writeOk : Bool)
    (db : DB) : Except DBError User × DB :=
  match loadDB db with
  | .error e => (.error e, db)
  | .ok d =>
    match mapLookup d.users userID with
    | none => (.error .doesNotExist, { db with data := d })
    | some u =>
      let r := updateUserData userID email pwHash u d
      match writeDB { db with data := r.2 } writeOk with
      | .error e => (.error e, { db with data := r.2 })
      | .ok db₁ => (.ok r.1, db₁)

/-- In-memory mutation step of CreateRefreshToken: the expiration is
now plus the requested lifetime. -/
def createRefreshTokenData (token : String) (userID : Int)
    (expiresInSeconds : Int) (now : Int) (d : DBRepresentation) :
    RefreshToken × DBRepresentation :=
  let rt : RefreshToken :=
    { token := token, userID := userID, expiration := now + expiresInSeconds }
  (rt, { d with refreshTokens := mapInsert d.refreshTokens rt.token rt })

/-- CreateRefreshToken in db.go: reload, reject a token string that is
already present, otherwise store and persist. -/
def CreateRefreshToken (token : String) (userID : Int) (expiresInSeconds : Int)
    (now : Int) (writeOk : Bool) (db : DB) : Except DBError RefreshToken × DB :=
  match loadDB db with
  | .error e => (.error e, db)
  | .ok d =>
    match mapLookup d.refreshTokens token with
    | some _ => (.error .alreadyExists, { db with data := d })
    | none =>
      let r := createRefreshTokenData token userID expiresInSeconds now d
      match writeDB { db with data := r.2 } writeOk with
      | .error e => (.error e, { db with data := r.2 })
      | .ok db₁ => (.ok r.1, db₁)

/-- GetRefreshToken in db.go: plain lookup, read-only, no expiry check
and no mutation. -/
def GetRefreshToken (d : DBRepresentation) (token : String) :
    Except DBError RefreshToken :=
  match mapLookup d.refreshTokens token with
  | none => .error .doesNotExist
  | some rt => .ok rt

/-- In-memory mutation step of DeleteRefreshToken. -/
def deleteRefreshTokenData (token : String) (d : DBRepresentation) :
    DBRepresentation :=
  { d with refreshTokens := mapDelete d.refreshTokens token }

/-- DeleteRefreshToken in db.go: reload, delete (a no-op for an absent
token), persist. -/
def DeleteRefreshToken (token : String) (writeOk : Bool) (db : DB) :
    Except DBError Unit × DB :=
  match loadDB db with
  | .error e => (.error e, db)
  | .ok d =>
    let d₁ := deleteRefreshTokenData token d
    match writeDB { db with data := d₁ } writeOk with
    | .error e => (.error e, { db with data := d₁ })
    | .ok db₁ => (.ok (), db₁)

/-- In-memory mutation step of CreateChirp: next ID, insert, advance
the counter. -/
def createChirpData (body : String) (authorID : Int) (d : DBRepresentation) :
    Chirp × DBRepresentation :=
  let c : Chirp := { id := d.lastChirpID + 1, authorID := authorID, body := body }
  (c, { d with chirps := mapInsert d.chirps c.id c, lastChirpID := c.id })

/-- CreateChirp in db.go: reload, create with the next ID, persist. -/
def CreateChirp (body : String) (authorID : Int) (writeOk : Bool) (db : DB) :
    Except DBError Chirp × DB :=
  match loadDB db with
  | .error e => (.error e, db)
  | .ok d =>
    let r := createChirpData body authorID d
    match writeDB { db with data := r.2 } writeOk with
    | .error e => (.error e, { db with data := r.2 })
    | .ok db₁ => (.ok r.1, db₁)

/-- GetChirp in db.go: read-only lookup. -/
def GetChirp (d : DBRepresentation) (chirpID : Int) : Except DBError Chirp :=
  match mapLookup d.chirps chirpID with
  | none => .error .doesNotExist
  | some c => .ok c

/-- GetChirps in db.go: collect all map values and sort ascending by ID
(read-only, no reload). -/
def GetChirps (d : DBRepresentation) : List Chirp :=
  sortByKey (fun c => c.id) (d.chirps.map (fun p => p.2))

/-- NewDB with a fresh (absent or truncated) file: ensureDB finds no
file and writes the empty representation. -/
def initialDB : DB :=
  { data := emptyRep, disk := some (encodeDB emptyRep) }

/-- Outcome of validating a refresh token in refreshTokenHandler
(service.go): absent, expired, or usable. -/
inductive ValidateResult where
  | notFound
  | expired
  | valid (rt : RefreshToken)
deriving Repr, DecidableEq

/-- The token validation performed by refreshTokenHandler in
service.go: GetRefreshToken, then the rt.Expiration.Before(now) check;
the store state is returned unchanged alongside the outcome, as the
handler performs no store mutation on this path. -/
def validateRefreshToken (d : DBRepresentation) (token : String) (now : Int) :
    ValidateResult × DBRepresentation :=
  match GetRefreshToken d token with
  | .error _ => (.notFound, d)
  | .ok rt => if rt.expiration < now then (.expired, d) else (.valid rt, d)

/-- Lower-casing of one character: the Unicode simple lowercase
mapping (the per-rune mapping strings.ToLower applies) restricted to
the code points whose image is ASCII, namely the ASCII capitals plus
U+212A KELVIN SIGN (lowering to k) and U+0130 LATIN CAPITAL LETTER I
WITH DOT ABOVE (lowering to i); every other code point is kept.  These
are the only code points Unicode lowers into ASCII, so a lowered word
compares equal to an ASCII word under this map exactly when it does
under strings.ToLower, and since cleanBody compares lowered words only
against its ASCII profanity list and otherwise keeps the original
word, the masking below coincides with the Go code on every input. -/
def lowerChar (c : Char) : Char :=
  if 65 ≤ c.toNat ∧ c.toNat ≤ 90 then Char.ofNat (c.toNat + 32)
  else if c.toNat = 8490 then Char.ofNat 107
  else if c.toNat = 304 then Char.ofNat 105
  else c

/-- strings.ToLower on a word. -/
def lowerWord (w : List Char) : List Char := w.map lowerChar

/-- The profanity list of cleanBody in service.go. -/
def badWords : List (List Char) :=
  [String.data "kerfuffle", String.data "sharbert", String.data "fornax"]

/-- strings.Split(s, space): every space splits, adjacent separators
yield empty words, the empty string yields one empty word. -/
def splitSp (s : List Char) : List (List Char) :=
  match s with
  | [] => [[]]
  | c :: rest =>
    if c = ' ' then [] :: splitSp rest
    else
      match splitSp rest with
      | [] => [[c]]
      | w :: ws => (c :: w) :: ws

/-- strings.Join(ws, space). -/
def joinSp : List (List Char) → List Char
  | [] => []
  | [w] => w
  | w :: ws => w ++ ' ' :: joinSp ws

/-- The per-word replacement inside cleanBody: a word whose lower-cased
form is in the profanity list becomes four asterisks. -/
def cleanWord (w : List Char) : List Char :=
  if lowerWord w ∈ badWords then String.data "****" else w

/-- cleanBody in service.go, on the character list of the body. -/
def cleanBodyL (s : List Char) : List Char :=
  joinSp ((splitSp s).map cleanWord)

/-- cleanBody in service.go. -/
def cleanBody (body : String) : String := String.mk (cleanBodyL body.data)

/-- Outcome of the chirp creation handler, after authentication. -/
inductive ChirpHandlerResult where
  | badRequest (msg : String)
  | serverError
  | created (c : Chirp)
deriving Repr, DecidableEq

/-- The body handling of createChirpHandler in service.go, after the
JWT has resolved to userID: reject an empty body and a body whose
len(cr.Body), the UTF-8 byte count, exceeds 140, then create the
chirp from the cleaned body. -/
def createChirpHandler (body : String) (userID : Int) (writeOk : Bool) (db : DB) :
    ChirpHandlerResult × DB :=
  if body = "" then (.badRequest "Chirp body missing", db)
  else if 140 < body.utf8ByteSize then (.badRequest "Chirp is too long", db)
  else
    match CreateChirp (cleanBody body) userID writeOk db with
    | (.ok c, db₁) => (.created c, db₁)
    | (.error _, db₁) => (.serverError, db₁)

/-- Well-formedness every Go map enjoys by construction: at most one
binding per key in each of the four snapshot maps. -/
def WFMaps (d : DBRepresentation) : Prop :=
  (mapKeys d.chirps).Nodup ∧ (mapKeys d.users).Nodup ∧
  (mapKeys d.userEmailIndex).Nodup ∧ (mapKeys d.refreshTokens).Nodup

instance (d : DBRepresentation) : Decidable (WFMaps d) := by
  unfold WFMaps; infer_instance

/-- Structural invariant of reachable snapshots: map well-formedness,
every stored ID bounded by its counter, stored records carrying their
own key as ID, and the email index only pointing at a user that holds
the indexed email. -/
structure StoreInv (d : DBRepresentation) : Prop where
  wf : WFMaps d
  chirpsLe : ∀ p ∈ d.chirps, p.1 ≤ d.lastChirpID
  usersLe : ∀ p ∈ d.users, p.1 ≤ d.lastUserID
  chirpsKeyID : ∀ p ∈ d.chirps, p.2.id = p.1
  usersKeyID : ∀ p ∈ d.users, p.2.user.id = p.1
  emailForward : ∀ e i, mapLookup d.userEmailIndex e = some i →
    ∃ u, mapLookup d.users i = some u ∧ u.user.email = e

/-- Invariant of a reachable store: the snapshot invariant plus a
backing file holding exactly the marshalled snapshot. -/
def DBInv (db : DB) : Prop :=
  StoreInv db.data ∧ db.disk = some (encodeDB db.data)

/-- One successful mutating operation of the store, with the persist
step succeeding. -/
inductive Step : DB → DB → Prop where
  | createUser (e pw : String) (u : User) (db db₁ : DB)
      (h : CreateUser e pw true db = (.ok u, db₁)) : Step db db₁
  | updateUser (i : Int) (e pw : String) (u : User) (db db₁ : DB)
      (h : UpdateUser i e pw true db = (.ok u, db₁)) : Step db db₁
  | createChirp (b : String) (a : Int) (c : Chirp) (db db₁ : DB)
      (h : CreateChirp b a true db = (.ok c, db₁)) : Step db db₁
  | createRefreshToken (t : String) (uid ttl now : Int) (rt : RefreshToken)
      (db db₁ : DB)
      (h : CreateRefreshToken t uid ttl now true db = (.ok rt, db₁)) : Step db db₁
  | deleteRefreshToken (t : String) (db db₁ : DB)
      (h : DeleteRefreshToken t true db = (.ok (), db₁)) : Step db db₁

/-- Store states reachable from a fresh store by successful operations. -/
inductive Reachable : DB → Prop where
  | init : Reachable initialDB
  | step (db db₁ : DB) (hr : Reachable db) (hs : Step db db₁) : Reachable db₁

/-- The email index consistency stated by the specification: an index
entry for e pointing at i exists exactly when user i holds email e. -/
def EmailIndexConsistent (d : DBRepresentation) : Prop :=
  ∀ e i, mapLookup d.userEmailIndex e = some i ↔
    ∃ u, mapLookup d.users i = some u ∧ u.user.email = e

/-- Entry-wise merge of a decoded entry list into an existing map, the
shape json.Unmarshal gives map decoding. -/
def foldIns [DecidableEq κ] (base : GoMap κ ν) (l : List (κ × ν)) : GoMap κ ν :=
  l.foldl (fun acc p => mapInsert acc p.1 p.2) base

/-- The result of Decoder.Decode of a marshalled snapshot into an
existing in-memory snapshot: counters are overwritten, maps merge
entry-wise. -/
def mergeRep (base d : DBRepresentation) : DBRepresentation :=
  { lastChirpID := d.lastChirpID,
    lastUserID := d.lastUserID,
    chirps := foldIns base.chirps d.chirps,
    users := foldIns base.users d.users,
    userEmailIndex := foldIns base.userEmailIndex d.userEmailIndex,
    refreshTokens := foldIns base.refreshTokens d.refreshTokens }

/-- Store data after creating one user a@x.com. -/
def repA : DBRepresentation := (createUserData "a@x.com" "d1" emptyRep).2

/-- Store after creating user a@x.com. -/
def dbA : DB := { data := repA, disk := some (encodeDB repA) }

/-- Store data after creating users a@x.com and b@x.com. -/
def repB : DBRepresentation := (createUserData "b@x.com" "d2" repA).2

/-- Store after creating users a@x.com and b@x.com. -/
def dbB : DB := { data := repB, disk := some (encodeDB repB) }

/-- Store data after additionally updating user 1 to the email b@x.com
already held by user 2. -/
def repC : DBRepresentation :=
  (updateUserData 1 "b@x.com" "d3"
    { user := { id := 1, email := "a@x.com" }, password := "d1" } repB).2

/-- Store after the email-stealing update. -/
def dbC : DB := { data := repC, disk := some (encodeDB repC) }

/-- Store data after issuing the refresh token tok at time 100 with a
60 second lifetime. -/
def repT : DBRepresentation := (createRefreshTokenData "tok" 1 60 100 emptyRep).2

/-- Store holding the refresh token tok. -/
def dbT : DB := { data := repT, disk := some (encodeDB repT) }

/-- Store data holding one chirp, created in memory. -/
def repChirp1 : DBRepresentation := (createChirpData "hi" 1 emptyRep).2

/-- A store whose backing file was externally truncated to the empty
snapshot while memory still holds chirp 1. -/
def dbExt : DB := { data := repChirp1, disk := some (encodeDB emptyRep) }

/-- What dbExt holds in memory after loadDB: the counters come from
the file but the chirp deleted from the file survives in memory. -/
def repExtLoaded : DBRepresentation :=
  { lastChirpID := 0, lastUserID := 0,
    chirps := [(1, { id := 1, authorID := 1, body := "hi" })],
    users := [], userEmailIndex := [], refreshTokens := [] }

/-- Snapshot storing chirps with bodies c, a, b under IDs 1, 2, 3, its
map entries deliberately out of ID order. -/
def repScrambled : DBRepresentation :=
  { lastChirpID := 3, lastUserID := 0,
    chirps := [(2, { id := 2, authorID := 1, body := "a" }),
               (1, { id := 1, authorID := 1, body := "c" }),
               (3, { id := 3, authorID := 1, body := "b" })],
    users := [], userEmailIndex := [], refreshTokens := [] }

theorem mapLookup_mem [DecidableEq κ] {m : GoMap κ ν} {k : κ} {v : ν}
    (h : mapLookup m k = some v) : (k, v) ∈ m := by
  induction m with
  | nil => simp [mapLookup] at h
  | cons p rest ih =>
    obtain ⟨k₁, v₁⟩ := p
    simp only [mapLookup] at h
    by_cases hk : k = k₁
    · simp [hk] at h; simp [hk, h]
    · simp [hk] at h; exact List.mem_cons_of_mem _ (ih h)

theorem mapLookup_mem_keys [DecidableEq κ] {m : GoMap κ ν} {k : κ} {v : ν}
    (h : mapLookup m k = some v) : k ∈ mapKeys m := by
  have := mapLookup_mem h
  exact List.mem_map.mpr ⟨(k, v), this, rfl⟩

theorem mapLookup_eq_none [DecidableEq κ] {m : GoMap κ ν} {k : κ}
    (h : k ∉ mapKeys m) : mapLookup m k = none := by
  induction m with
  | nil => rfl
  | cons p rest ih =>
    obtain ⟨k₁, v₁⟩ := p
    simp only [mapKeys, List.map_cons, List.mem_cons] at h
    push_neg at h
    simp only [mapLookup, if_neg h.1]
    exact ih h.2

theorem mapLookup_of_mem_nodup [DecidableEq κ] {m : GoMap κ ν} {k : κ} {v : ν}
    (hn : (mapKeys m).Nodup) (h : (k, v) ∈ m) : mapLookup m k = some v := by
  induction m with
  | nil => simp at h
  | cons p rest ih =>
    obtain ⟨k₁, v₁⟩ := p
    simp only [mapKeys, List.map_cons, List.nodup_cons] at hn
    rcases List.mem_cons.mp h with h' | h'
    · obtain ⟨rfl, rfl⟩ := Prod.mk.injEq .. ▸ h'
      simp [mapLookup]
    · have hk : k ≠ k₁ := by
        rintro rfl
        exact hn.1 (List.mem_map.mpr ⟨(k, v), h', rfl⟩)
      simp only [mapLookup, if_neg hk]
      exact ih hn.2 h'

theorem mapLookup_insert_self [DecidableEq κ] (m : GoMap κ ν) (k : κ) (v : ν) :
    mapLookup (mapInsert m k v) k = some v := by
  induction m with
  | nil => simp [mapInsert, mapLookup]
  | cons p rest ih =>
    obtain ⟨k₁, v₁⟩ := p
    by_cases hk : k = k₁
    · simp [mapInsert, mapLookup, hk]
    · simp [mapInsert, mapLookup, hk, ih]

theorem mapLookup_insert_ne [DecidableEq κ] (m : GoMap κ ν) (k k' : κ) (v : ν)
    (h : k' ≠ k) : mapLookup (mapInsert m k v) k' = mapLookup m k' := by
  induction m with
  | nil => simp [mapInsert, mapLookup, h]
  | cons p rest ih =>
    obtain ⟨k₁, v₁⟩ := p
    by_cases hk : k = k₁
    · subst hk
      simp [mapInsert, mapLookup, h]
    · by_cases hk' : k' = k₁
      · simp [mapInsert, mapLookup, hk, hk']
      · simp [mapInsert, mapLookup, hk, hk', ih]

theorem mem_mapInsert [DecidableEq κ] {m : GoMap κ ν} {k : κ} {v : ν} {p : κ × ν}
    (h : p ∈ mapInsert m k v) : p = (k, v) ∨ p ∈ m := by
  induction m with
  | nil => simp [mapInsert] at h; simp [h]
  | cons q rest ih =>
    obtain ⟨k₁, v₁⟩ := q
    by_cases hk : k = k₁
    · simp only [mapInsert, if_pos hk] at h
      rcases List.mem_cons.mp h with h' | h'
      · exact Or.inl h'
      · exact Or.inr (List.mem_cons_of_mem _ h')
    · simp only [mapInsert, if_neg hk] at h
      rcases List.mem_cons.mp h with h' | h'
      · exact Or.inr (h' ▸ List.mem_cons_self _ _)
      · rcases ih h' with h'' | h''
        · exact Or.inl h''
        · exact Or.inr (List.mem_cons_of_mem _ h'')

theorem mapKeys_insert_subset [DecidableEq κ] (m : GoMap κ ν) (k : κ) (v : ν) :
    mapKeys (mapInsert m k v) ⊆ k :: mapKeys m := by
  intro x hx
  simp only [mapKeys, List.mem_map] at hx
  obtain ⟨p, hp, rfl⟩ := hx
  rcases mem_mapInsert hp with h | h
  · simp [h]
  · exact List.mem_cons_of_mem _ (List.mem_map.mpr ⟨p, h, rfl⟩)

theorem mapKeys_insert_nodup [DecidableEq κ] {m : GoMap κ ν}
    (hn : (mapKeys m).Nodup) (k : κ) (v : ν) :
    (mapKeys (mapInsert m k v)).Nodup := by
  induction m with
  | nil => simp [mapInsert, mapKeys]
  | cons p rest ih =>
    obtain ⟨k₁, v₁⟩ := p
    simp only [mapKeys, List.map_cons, List.nodup_cons] at hn
    by_cases hk : k = k₁
    · subst hk
      simpa [mapInsert, mapKeys, List.nodup_cons] using hn
    · simp only [mapInsert, if_neg hk, mapKeys, List.map_cons, List.nodup_cons]
      refine ⟨fun hmem => ?_, ih hn.2⟩
      have := mapKeys_insert_subset rest k v hmem
      rcases List.mem_cons.mp this with h' | h'
      · exact hk h'.symm
      · exact hn.1 h'

theorem mapInsert_of_not_mem [DecidableEq κ] {m : GoMap κ ν} {k : κ} (v : ν)
    (h : k ∉ mapKeys m) : mapInsert m k v = m ++ [(k, v)] := by
  induction m with
  | nil => rfl
  | cons p rest ih =>
    obtain ⟨k₁, v₁⟩ := p
    simp only [mapKeys, List.map_cons, List.mem_cons] at h
    push_neg at h
    simp [mapInsert, h.1, ih h.2]

theorem mapInsert_lookup_eq [DecidableEq κ] {m : GoMap κ ν} {k : κ} {v : ν}
    (h : mapLookup m k = some v) : mapInsert m k v = m := by
  induction m with
  | nil => simp [mapLookup] at h
  | cons p rest ih =>
    obtain ⟨k₁, v₁⟩ := p
    simp only [mapLookup] at h
    by_cases hk : k = k₁
    · simp [hk] at h
      simp [mapInsert, hk, h]
    · simp [hk] at h
      simp [mapInsert, hk, ih h]

theorem mapDelete_sublist [DecidableEq κ] (m : GoMap κ ν) (k : κ) :
    (mapDelete m k).Sublist m := by
  induction m with
  | nil => simp [mapDelete]
  | cons p rest ih =>
    obtain ⟨k₁, v₁⟩ := p
    by_cases hk : k = k₁
    · simp only [mapDelete, if_pos hk]
      exact ih.cons _
    · simp only [mapDelete, if_neg hk]
      exact ih.cons₂ _

theorem mapKeys_delete_nodup [DecidableEq κ] {m : GoMap κ ν}
    (hn : (mapKeys m).Nodup) (k : κ) : (mapKeys (mapDelete m k)).Nodup :=
  List.Nodup.sublist ((mapDelete_sublist m k).map _) hn

theorem mapLookup_delete_self [DecidableEq κ] (m : GoMap κ ν) (k : κ) :
    mapLookup (mapDelete m k) k = none := by
  induction m with
  | nil => rfl
  | cons p rest ih =>
    obtain ⟨k₁, v₁⟩ := p
    by_cases hk : k = k₁
    · subst hk
      simp [mapDelete, ih]
    · simp [mapDelete, mapLookup, hk, ih]

theorem mapLookup_delete_ne [DecidableEq κ] (m : GoMap κ ν) (k k' : κ)
    (h : k' ≠ k) : mapLookup (mapDelete m k) k' = mapLookup m k' := by
  induction m with
  | nil => rfl
  | cons p rest ih =>
    obtain ⟨k₁, v₁⟩ := p
    by_cases hk : k = k₁
    · subst hk
      simp [mapDelete, mapLookup, h, ih]
    · by_cases hk' : k' = k₁
      · simp [mapDelete, mapLookup, hk, hk']
      · simp [mapDelete, mapLookup, hk, hk', ih]

theorem mem_mapDelete [DecidableEq κ] {m : GoMap κ ν} {k : κ} {p : κ × ν}
    (h : p ∈ mapDelete m k) : p ∈ m :=
  (mapDelete_sublist m k).mem h

theorem foldIns_nil [DecidableEq κ] (base : GoMap κ ν) : foldIns base [] = base := rfl

theorem foldIns_cons [DecidableEq κ] (base : GoMap κ ν) (p : κ × ν) (l : List (κ × ν)) :
    foldIns base (p :: l) = foldIns (mapInsert base p.1 p.2) l := rfl

theorem foldIns_eq_self [DecidableEq κ] {base : GoMap κ ν} {l : List (κ × ν)}
    (h : ∀ p ∈ l, mapLookup base p.1 = some p.2) : foldIns base l = base := by
  induction l with
  | nil => rfl
  | cons p rest ih =>
    rw [foldIns_cons, mapInsert_lookup_eq (h p (List.mem_cons_self _ _))]
    exact ih fun q hq => h q (List.mem_cons_of_mem _ hq)

theorem foldIns_self [DecidableEq κ] {m : GoMap κ ν} (hn : (mapKeys m).Nodup) :
    foldIns m m = m :=
  foldIns_eq_self fun p hp => mapLookup_of_mem_nodup hn (by simpa using hp)

theorem foldIns_disjoint [DecidableEq κ] {base : GoMap κ ν} {l : List (κ × ν)}
    (hd : ∀ k ∈ mapKeys l, k ∉ mapKeys base) (hn : (mapKeys l).Nodup) :
    foldIns base l = base ++ l := by
  induction l generalizing base with
  | nil => simp [foldIns_nil]
  | cons p rest ih =>
    obtain ⟨k, v⟩ := p
    simp only [mapKeys, List.map_cons, List.nodup_cons] at hn
    rw [foldIns_cons]
    have hkb : k ∉ mapKeys base := hd k (by simp [mapKeys])
    rw [mapInsert_of_not_mem v hkb]
    rw [ih ?_ hn.2]
    · simp
    · intro x hx hmem
      simp only [mapKeys, List.map_append, List.map_cons, List.map_nil,
        List.mem_append, List.mem_singleton] at hmem
      rcases hmem with hb | rfl
      · have hx' : x ∈ mapKeys ((k, v) :: rest) := by
          rw [mapKeys, List.map_cons]
          exact List.mem_cons_of_mem _ hx
        exact hd x hx' hb
      · exact hn.1 hx

theorem foldIns_empty [DecidableEq κ] {l : List (κ × ν)} (hn : (mapKeys l).Nodup) :
    foldIns ([] : GoMap κ ν) l = l := by
  rw [foldIns_disjoint (by simp [mapKeys]) hn]; simp

theorem mapLookup_foldIns_of_none [DecidableEq κ] {l : List (κ × ν)} {k : κ}
    (h : mapLookup l k = none) (base : GoMap κ ν) :
    mapLookup (foldIns base l) k = mapLookup base k := by
  induction l generalizing base with
  | nil => rfl
  | cons p rest ih =>
    obtain ⟨k₁, v₁⟩ := p
    simp only [mapLookup] at h
    by_cases hk : k = k₁
    · simp [hk] at h
    · simp only [if_neg hk] at h
      rw [foldIns_cons, ih h, mapLookup_insert_ne _ _ _ _ hk]

theorem mapLookup_foldIns_of_some [DecidableEq κ] {l : List (κ × ν)} {k : κ}
    {v : ν} (hn : (mapKeys l).Nodup) (h : mapLookup l k = some v)
    (base : GoMap κ ν) : mapLookup (foldIns base l) k = some v := by
  induction l generalizing base with
  | nil => simp [mapLookup] at h
  | cons p rest ih =>
    obtain ⟨k₁, v₁⟩ := p
    simp only [mapKeys, List.map_cons, List.nodup_cons] at hn
    simp only [mapLookup] at h
    rw [foldIns_cons]
    by_cases hk : k = k₁
    · simp only [if_pos hk] at h
      subst hk
      have hrest : mapLookup rest k = none :=
        mapLookup_eq_none hn.1
      rw [mapLookup_foldIns_of_none hrest, mapLookup_insert_self, h]
    · simp only [if_neg hk] at h
      exact ih hn.2 h _

theorem decodeChirp_encode (c : Chirp) : decodeChirp (encodeChirp c) = some c := rfl

theorem decodeAuthUser_encode (u : AuthUser) :
    decodeAuthUser (encodeAuthUser u) = some u := rfl

theorem decodeRefreshToken_encode (t : RefreshToken) :
    decodeRefreshToken (encodeRefreshToken t) = some t := rfl

theorem asInt_num (n : Int) : asInt (.num n) = some n := rfl

theorem digitToNat_ofNat : ∀ d : Nat, d < 10 → digitToNat (Char.ofNat (48 + d)) = some d := by
  decide

theorem ofNat_digit_ne_minus : ∀ d : Nat, d < 10 → Char.ofNat (48 + d) ≠ Char.ofNat 45 := by
  decide

theorem natToDigits_ne_nil (n : Nat) : natToDigits n ≠ [] := by
  rw [natToDigits]
  split <;> simp

theorem natToDigits_digits : ∀ n : Nat, ∀ c ∈ natToDigits n, ∃ d, d < 10 ∧ c = Char.ofNat (48 + d) := by
  intro n
  induction n using Nat.strong_induction_on with
  | _ n ih =>
    intro c hc
    rw [natToDigits] at hc
    split at hc
    · next h =>
      simp only [List.mem_singleton] at hc
      exact ⟨n, h, hc⟩
    · next h =>
      rcases List.mem_append.mp hc with h₁ | h₁
      · exact ih (n / 10) (Nat.div_lt_self (by omega) (by omega)) c h₁
      · simp only [List.mem_singleton] at h₁
        exact ⟨n % 10, Nat.mod_lt _ (by omega), h₁⟩

theorem parseNatFrom_append (acc : Nat) (xs ys : List Char) :
    parseNatFrom acc (xs ++ ys) =
      match parseNatFrom acc xs with
      | some a => parseNatFrom a ys
      | none => none := by
  induction xs generalizing acc with
  | nil => rfl
  | cons c cs ih =>
    simp only [List.cons_append, parseNatFrom]
    cases digitToNat c with
    | some d => exact ih _
    | none => rfl

theorem parseNatFrom_natToDigits :
    ∀ n : Nat, ∃ k, ∀ acc, parseNatFrom acc (natToDigits n) = some (acc * 10 ^ k + n) := by
  intro n
  induction n using Nat.strong_induction_on with
  | _ n ih =>
    by_cases h : n < 10
    · refine ⟨1, fun acc => ?_⟩
      rw [natToDigits]
      simp only [dif_pos h, parseNatFrom, digitToNat_ofNat n h]
      simp [pow_one]
    · obtain ⟨k, hk⟩ := ih (n / 10) (Nat.div_lt_self (by omega) (by omega))
      refine ⟨k + 1, fun acc => ?_⟩
      rw [natToDigits]
      simp only [dif_neg h]
      rw [parseNatFrom_append, hk acc]
      simp only [parseNatFrom, digitToNat_ofNat (n % 10) (Nat.mod_lt _ (by omega))]
      have hmod : 10 * (n / 10) + n % 10 = n := Nat.div_add_mod n 10
      have : (acc * 10 ^ k + n / 10) * 10 + n % 10 =
          acc * 10 ^ (k + 1) + (10 * (n / 10) + n % 10) := by ring
      rw [this, hmod]

theorem parseNat_natToDigits (n : Nat) : parseNatFrom 0 (natToDigits n) = some n := by
  obtain ⟨k, hk⟩ := parseNatFrom_natToDigits n
  simpa using hk 0

theorem parseIntKey_minus (l : List Char) (hl : l ≠ []) :
    parseIntKey (String.mk (Char.ofNat 45 :: l)) =
      (parseNatFrom 0 l).map (fun n => -(Int.ofNat n)) := by
  have h : parseIntKey (String.mk (Char.ofNat 45 :: l)) =
      if l = [] then none else (parseNatFrom 0 l).map (fun n => -(Int.ofNat n)) := rfl
  rw [h, if_neg hl]

theorem parseIntKey_of_head_ne (c : Char) (l : List Char) (hc : c ≠ Char.ofNat 45) :
    parseIntKey (String.mk (c :: l)) = (parseNatFrom 0 (c :: l)).map Int.ofNat := by
  have h : parseIntKey (String.mk (c :: l)) =
      if c = Char.ofNat 45 then
        (if l = [] then none else (parseNatFrom 0 l).map (fun n => -(Int.ofNat n)))
      else (parseNatFrom 0 (c :: l)).map Int.ofNat := rfl
  rw [h, if_neg hc]

theorem parseIntKey_intKey (i : Int) : parseIntKey (intKey i) = some i := by
  by_cases h : i < 0
  · rw [intKey, if_pos h, parseIntKey_minus _ (natToDigits_ne_nil _),
      parseNat_natToDigits]
    simp only [Option.map_some']
    have : -(Int.ofNat i.natAbs) = i := by simp only [Int.ofNat_eq_coe]; omega
    rw [this]
  · obtain ⟨c, cs, hcs⟩ : ∃ c cs, natToDigits i.toNat = c :: cs := by
      cases hd : natToDigits i.toNat with
      | nil => exact absurd hd (natToDigits_ne_nil _)
      | cons c cs => exact ⟨c, cs, rfl⟩
    have hcne : c ≠ Char.ofNat 45 := by
      obtain ⟨d, hd10, hdc⟩ := natToDigits_digits i.toNat c (by simp [hcs])
      exact hdc ▸ ofNat_digit_ne_minus d hd10
    rw [intKey, if_neg h, hcs, parseIntKey_of_head_ne c cs hcne, ← hcs,
      parseNat_natToDigits]
    simp only [Option.map_some']
    have : Int.ofNat i.toNat = i := by simp only [Int.ofNat_eq_coe]; omega
    rw [this]

theorem decodeIntMapInto_encode {ν : Type} (decVal : Json → Option ν)
    (enc : ν → Json) (hrt : ∀ v, decVal (enc v) = some v) (l : GoMap Int ν) :
    ∀ base, decodeIntMapInto decVal base
      (.obj (l.map (fun p => (intKey p.1, enc p.2)))) = some (foldIns base l) := by
  induction l with
  | nil => intro base; rfl
  | cons p rest ih =>
    intro base
    obtain ⟨k, v⟩ := p
    simp only [decodeIntMapInto, List.map_cons, List.foldlM_cons,
      parseIntKey_intKey, hrt, Option.bind_eq_bind, Option.some_bind]
    exact ih (mapInsert base k v)

theorem decodeStrMapInto_encode {ν : Type} (decVal : Json → Option ν)
    (enc : ν → Json) (hrt : ∀ v, decVal (enc v) = some v) (l : GoMap String ν) :
    ∀ base, decodeStrMapInto decVal base
      (.obj (l.map (fun p => (p.1, enc p.2)))) = some (foldIns base l) := by
  induction l with
  | nil => intro base; rfl
  | cons p rest ih =>
    intro base
    obtain ⟨k, v⟩ := p
    simp only [decodeStrMapInto, List.map_cons, List.foldlM_cons, hrt,
      Option.bind_eq_bind, Option.some_bind]
    exact ih (mapInsert base k v)

theorem decodeDBInto_encodeDB (base d : DBRepresentation) :
    decodeDBInto base (encodeDB d) = some (mergeRep base d) := by
  simp only [decodeDBInto, encodeDB, List.foldlM_cons, List.foldlM_nil,
    decodeDBField, asInt, Option.map_some', Option.bind_eq_bind,
    Option.some_bind, String.reduceEq, reduceIte,
    decodeIntMapInto_encode decodeChirp encodeChirp decodeChirp_encode,
    decodeIntMapInto_encode decodeAuthUser encodeAuthUser decodeAuthUser_encode,
    decodeStrMapInto_encode asInt Json.num asInt_num,
    decodeStrMapInto_encode decodeRefreshToken encodeRefreshToken
      decodeRefreshToken_encode]
  rfl

theorem mergeRep_self {d : DBRepresentation} (h : WFMaps d) : mergeRep d d = d := by
  obtain ⟨h₁, h₂, h₃, h₄⟩ := h
  simp only [mergeRep, foldIns_self h₁, foldIns_self h₂, foldIns_self h₃,
    foldIns_self h₄]

theorem mergeRep_empty {d : DBRepresentation} (h : WFMaps d) :
    mergeRep emptyRep d = d := by
  obtain ⟨h₁, h₂, h₃, h₄⟩ := h
  simp only [mergeRep, emptyRep, foldIns_empty h₁, foldIns_empty h₂,
    foldIns_empty h₃, foldIns_empty h₄]

theorem loadDB_self {db : DB} (h : DBInv db) : loadDB db = .ok db.data := by
  obtain ⟨hinv, hdisk⟩ := h
  simp only [loadDB, hdisk, decodeDBInto_encodeDB, mergeRep_self hinv.wf]

theorem loadDB_fresh {d : DBRepresentation} (h : WFMaps d) :
    loadDB { data := emptyRep, disk := some (encodeDB d) } = .ok d := by
  simp only [loadDB, decodeDBInto_encodeDB, mergeRep_empty h]

theorem CreateUser_dup_eq {db : DB} (h : DBInv db) (e pw : String) (i : Int)
    (hdup : mapLookup db.data.userEmailIndex e = some i) :
    CreateUser e pw true db = (.error .alreadyExists, db) := by
  simp only [CreateUser, loadDB_self h, hdup]

theorem CreateUser_ok_eq {db : DB} (h : DBInv db) (e pw : String)
    (hfree : mapLookup db.data.userEmailIndex e = none) :
    CreateUser e pw true db =
      (.ok (createUserData e pw db.data).1,
       { data := (createUserData e pw db.data).2,
         disk := some (encodeDB (createUserData e pw db.data).2) }) := by
  simp only [CreateUser, loadDB_self h, hfree, writeDB, if_true]

theorem UpdateUser_notFound_eq {db : DB} (h : DBInv db) (uid : Int) (e pw : String)
    (hmiss : mapLookup db.data.users uid = none) :
    UpdateUser uid e pw true db = (.error .doesNotExist, db) := by
  simp only [UpdateUser, loadDB_self h, hmiss]

theorem UpdateUser_ok_eq {db : DB} (h : DBInv db) (uid : Int) (e pw : String)
    (u : AuthUser) (hu : mapLookup db.data.users uid = some u) :
    UpdateUser uid e pw true db =
      (.ok (updateUserData uid e pw u db.data).1,
       { data := (updateUserData uid e pw u db.data).2,
         disk := some (encodeDB (updateUserData uid e pw u db.data).2) }) := by
  simp only [UpdateUser, loadDB_self h, hu, writeDB, if_true]

theorem CreateRefreshToken_dup_eq {db : DB} (h : DBInv db) (t : String)
    (uid ttl now : Int) (rt : RefreshToken)
    (hdup : mapLookup db.data.refreshTokens t = some rt) :
    CreateRefreshToken t uid ttl now true db = (.error .alreadyExists, db) := by
  simp only [CreateRefreshToken, loadDB_self h, hdup]

theorem CreateRefreshToken_ok_eq {db : DB} (h : DBInv db) (t : String)
    (uid ttl now : Int) (hfree : mapLookup db.data.refreshTokens t = none) :
    CreateRefreshToken t uid ttl now true db =
      (.ok (createRefreshTokenData t uid ttl now db.data).1,
       { data := (createRefreshTokenData t uid ttl now db.data).2,
         disk := some (encodeDB (createRefreshTokenData t uid ttl now db.data).2) }) := by
  simp only [CreateRefreshToken, loadDB_self h, hfree, writeDB, if_true]

theorem DeleteRefreshToken_eq {db : DB} (h : DBInv db) (t : String) :
    DeleteRefreshToken t true db =
      (.ok (),
       { data := deleteRefreshTokenData t db.data,
         disk := some (encodeDB (deleteRefreshTokenData t db.data)) }) := by
  simp only [DeleteRefreshToken, loadDB_self h, writeDB, if_true]

theorem CreateChirp_ok_eq {db : DB} (h : DBInv db) (b : String) (a : Int) :
    CreateChirp b a true db =
      (.ok (createChirpData b a db.data).1,
       { data := (createChirpData b a db.data).2,
         disk := some (encodeDB (createChirpData b a db.data).2) }) := by
  simp only [CreateChirp, loadDB_self h, writeDB, if_true]

theorem storeInv_createChirp {d : DBRepresentation} (h : StoreInv d)
    (b : String) (a : Int) : StoreInv (createChirpData b a d).2 := by
  obtain ⟨⟨w₁, w₂, w₃, w₄⟩, hcle, hule, hckey, hukey, hfwd⟩ := h
  refine ⟨⟨mapKeys_insert_nodup w₁ _ _, w₂, w₃, w₄⟩, ?_, hule, ?_, hukey, hfwd⟩
  · intro p hp
    rcases mem_mapInsert hp with rfl | hp'
    · simp [createChirpData]
    · have := hcle p hp'
      simp only [createChirpData]
      omega
  · intro p hp
    rcases mem_mapInsert hp with rfl | hp'
    · rfl
    · exact hckey p hp'

theorem storeInv_createUser {d : DBRepresentation} (h : StoreInv d)
    (e pw : String) (hfree : mapLookup d.userEmailIndex e = none) :
    StoreInv (createUserData e pw d).2 := by
  obtain ⟨⟨w₁, w₂, w₃, w₄⟩, hcle, hule, hckey, hukey, hfwd⟩ := h
  refine ⟨⟨w₁, mapKeys_insert_nodup w₂ _ _, mapKeys_insert_nodup w₃ _ _, w₄⟩,
    hcle, ?_, hckey, ?_, ?_⟩
  · intro p hp
    rcases mem_mapInsert hp with rfl | hp'
    · simp [createUserData]
    · have := hule p hp'
      simp only [createUserData]
      omega
  · intro p hp
    rcases mem_mapInsert hp with rfl | hp'
    · rfl
    · exact hukey p hp'
  · intro x i hx
    simp only [createUserData] at hx ⊢
    by_cases hxe : x = e
    · subst hxe
      rw [mapLookup_insert_self] at hx
      obtain rfl : d.lastUserID + 1 = i := by
        simpa using hx
      refine ⟨_, mapLookup_insert_self _ _ _, rfl⟩
    · rw [mapLookup_insert_ne _ _ _ _ hxe] at hx
      obtain ⟨u, hu, hue⟩ := hfwd x i hx
      have hile : i ≤ d.lastUserID := hule (i, u) (mapLookup_mem hu)
      have hine : i ≠ d.lastUserID + 1 := by omega
      exact ⟨u, by rw [mapLookup_insert_ne _ _ _ _ hine]; exact hu, hue⟩

theorem storeInv_updateUser {d : DBRepresentation} (h : StoreInv d)
    (uid : Int) (e pw : String) (u : AuthUser)
    (hu : mapLookup d.users uid = some u) :
    StoreInv (updateUserData uid e pw u d).2 := by
  obtain ⟨⟨w₁, w₂, w₃, w₄⟩, hcle, hule, hckey, hukey, hfwd⟩ := h
  have huid : u.user.id = uid := hukey (uid, u) (mapLookup_mem hu)
  refine ⟨⟨w₁, mapKeys_insert_nodup w₂ _ _,
    mapKeys_insert_nodup (mapKeys_delete_nodup w₃ _) _ _, w₄⟩,
    hcle, ?_, hckey, ?_, ?_⟩
  · intro p hp
    rcases mem_mapInsert hp with rfl | hp'
    · exact hule (uid, u) (mapLookup_mem hu)
    · exact hule p hp'
  · intro p hp
    rcases mem_mapInsert hp with rfl | hp'
    · exact huid
    · exact hukey p hp'
  · intro x i hx
    simp only [updateUserData] at hx ⊢
    by_cases hxe : x = e
    · subst hxe
      rw [mapLookup_insert_self] at hx
      obtain rfl : u.user.id = i := by simpa using hx
      rw [huid]
      exact ⟨_, mapLookup_insert_self _ _ _, rfl⟩
    · rw [mapLookup_insert_ne _ _ _ _ hxe] at hx
      by_cases hxold : x = u.user.email
      · rw [hxold, mapLookup_delete_self] at hx
        exact absurd hx (by simp)
      · rw [mapLookup_delete_ne _ _ _ hxold] at hx
        obtain ⟨w, hw, hwe⟩ := hfwd x i hx
        by_cases hiu : i = uid
        · subst hiu
          rw [hu] at hw
          obtain rfl : u = w := by simpa using hw
          exact absurd hwe.symm (by simpa using hxold)
        · exact ⟨w, by rw [mapLookup_insert_ne _ _ _ _ hiu]; exact hw, hwe⟩

theorem storeInv_createRefreshToken {d : DBRepresentation} (h : StoreInv d)
    (t : String) (uid ttl now : Int) :
    StoreInv (createRefreshTokenData t uid ttl now d).2 := by
  obtain ⟨⟨w₁, w₂, w₃, w₄⟩, hcle, hule, hckey, hukey, hfwd⟩ := h
  exact ⟨⟨w₁, w₂, w₃, mapKeys_insert_nodup w₄ _ _⟩,
    hcle, hule, hckey, hukey, hfwd⟩

theorem storeInv_deleteRefreshToken {d : DBRepresentation} (h : StoreInv d)
    (t : String) : StoreInv (deleteRefreshTokenData t d) := by
  obtain ⟨⟨w₁, w₂, w₃, w₄⟩, hcle, hule, hckey, hukey, hfwd⟩ := h
  exact ⟨⟨w₁, w₂, w₃, mapKeys_delete_nodup w₄ _⟩,
    hcle, hule, hckey, hukey, hfwd⟩

theorem storeInv_empty : StoreInv emptyRep := by
  refine ⟨⟨?_, ?_, ?_, ?_⟩, ?_, ?_, ?_, ?_, ?_⟩ <;>
    simp [emptyRep, mapKeys, mapLookup]

theorem dbInv_initial : DBInv initialDB := ⟨storeInv_empty, rfl⟩

theorem dbInv_step {db db₁ : DB} (h : DBInv db) (hs : Step db db₁) : DBInv db₁ := by
  cases hs with
  | createUser e pw u db db₁ heq =>
    cases hlk : mapLookup db.data.userEmailIndex e with
    | some i =>
      rw [CreateUser_dup_eq h e pw i hlk] at heq
      exact absurd (congrArg Prod.fst heq) (by simp)
    | none =>
      rw [CreateUser_ok_eq h e pw hlk, Prod.mk.injEq] at heq
      obtain ⟨-, rfl⟩ := heq
      exact ⟨storeInv_createUser h.1 e pw hlk, rfl⟩
  | updateUser i e pw u db db₁ heq =>
    cases hlk : mapLookup db.data.users i with
    | none =>
      rw [UpdateUser_notFound_eq h i e pw hlk] at heq
      exact absurd (congrArg Prod.fst heq) (by simp)
    | some w =>
      rw [UpdateUser_ok_eq h i e pw w hlk, Prod.mk.injEq] at heq
      obtain ⟨-, rfl⟩ := heq
      exact ⟨storeInv_updateUser h.1 i e pw w hlk, rfl⟩
  | createChirp b a c db db₁ heq =>
    rw [CreateChirp_ok_eq h b a, Prod.mk.injEq] at heq
    obtain ⟨-, rfl⟩ := heq
    exact ⟨storeInv_createChirp h.1 b a, rfl⟩
  | createRefreshToken t uid ttl now rt db db₁ heq =>
    cases hlk : mapLookup db.data.refreshTokens t with
    | some w =>
      rw [CreateRefreshToken_dup_eq h t uid ttl now w hlk] at heq
      exact absurd (congrArg Prod.fst heq) (by simp)
    | none =>
      rw [CreateRefreshToken_ok_eq h t uid ttl now hlk, Prod.mk.injEq] at heq
      obtain ⟨-, rfl⟩ := heq
      exact ⟨storeInv_createRefreshToken h.1 t uid ttl now, rfl⟩
  | deleteRefreshToken t db db₁ heq =>
    rw [DeleteRefreshToken_eq h t, Prod.mk.injEq] at heq
    obtain ⟨-, rfl⟩ := heq
    exact ⟨storeInv_deleteRefreshToken h.1 t, rfl⟩

theorem reachable_dbInv {db : DB} (h : Reachable db) : DBInv db := by
  induction h with
  | init => exact dbInv_initial
  | step db db₁ hr hs ih => exact dbInv_step ih hs

theorem insertSorted_perm (key : α → Int) (x : α) (l : List α) :
    (insertSorted key x l).Perm (x :: l) := by
  induction l with
  | nil => simp [insertSorted]
  | cons y ys ih =>
    by_cases h : key x < key y
    · simp [insertSorted, h]
    · simp only [insertSorted, if_neg h]
      exact (ih.cons y).trans (List.Perm.swap x y ys)

theorem sortByKey_perm (key : α → Int) (l : List α) :
    (sortByKey key l).Perm l := by
  induction l with
  | nil => simp [sortByKey]
  | cons x xs ih =>
    exact (insertSorted_perm key x (sortByKey key xs)).trans (ih.cons x)

theorem mem_insertSorted {key : α → Int} {x a : α} {l : List α}
    (h : a ∈ insertSorted key x l) : a = x ∨ a ∈ l := by
  have := (insertSorted_perm key x l).mem_iff.mp h
  simpa using this

theorem insertSorted_pairwise {key : α → Int} {l : List α}
    (h : l.Pairwise (fun a b => key a ≤ key b)) (x : α) :
    (insertSorted key x l).Pairwise (fun a b => key a ≤ key b) := by
  induction l with
  | nil => simp [insertSorted]
  | cons y ys ih =>
    rw [List.pairwise_cons] at h
    by_cases hlt : key x < key y
    · simp only [insertSorted, if_pos hlt]
      rw [List.pairwise_cons]
      refine ⟨?_, List.pairwise_cons.mpr h⟩
      intro b hb
      rcases List.mem_cons.mp hb with rfl | hb'
      · exact le_of_lt hlt
      · exact le_trans (le_of_lt hlt) (h.1 b hb')
    · simp only [insertSorted, if_neg hlt]
      rw [List.pairwise_cons]
      refine ⟨?_, ih h.2⟩
      intro b hb
      rcases mem_insertSorted hb with rfl | hb'
      · omega
      · exact h.1 b hb'

theorem sortByKey_pairwise (key : α → Int) (l : List α) :
    (sortByKey key l).Pairwise (fun a b => key a ≤ key b) := by
  induction l with
  | nil => simp [sortByKey]
  | cons x xs ih => exact insertSorted_pairwise ih x

theorem sortByKey_pairwise_lt {key : α → Int} {l : List α}
    (hn : (l.map key).Nodup) :
    (sortByKey key l).Pairwise (fun a b => key a < key b) := by
  have hperm : ((sortByKey key l).map key).Perm (l.map key) :=
    (sortByKey_perm key l).map key
  have hn' : ((sortByKey key l).map key).Nodup := hperm.nodup_iff.mpr hn
  have hne : (sortByKey key l).Pairwise (fun a b => key a ≠ key b) :=
    (List.pairwise_map).mp hn'
  have hle := sortByKey_pairwise key l
  exact (hle.and hne).imp fun h => lt_of_le_of_ne h.1 h.2

theorem splitSp_ne_nil (s : List Char) : splitSp s ≠ [] := by
  cases s with
  | nil => simp [splitSp]
  | cons c rest =>
    by_cases h : c = ' '
    · simp [splitSp, h]
    · simp only [splitSp, if_neg h]
      cases splitSp rest <;> simp

theorem space_not_mem_splitSp :
    ∀ s : List Char, ∀ w ∈ splitSp s, ' ' ∉ w := by
  intro s
  induction s with
  | nil =>
    intro w hw
    simp [splitSp] at hw
    simp [hw]
  | cons c rest ih =>
    intro w hw
    by_cases h : c = ' '
    · simp only [splitSp, if_pos h, List.mem_cons] at hw
      rcases hw with rfl | hw'
      · simp
      · exact ih w hw'
    · simp only [splitSp, if_neg h] at hw
      cases hsp : splitSp rest with
      | nil => exact absurd hsp (splitSp_ne_nil rest)
      | cons w₁ ws =>
        rw [hsp] at hw
        rcases List.mem_cons.mp hw with rfl | hw'
        · intro hspace
          rcases List.mem_cons.mp hspace with heq | hmem
          · exact h heq.symm
          · exact ih w₁ (hsp ▸ List.mem_cons_self _ _) hmem
        · exact ih w (hsp ▸ List.mem_cons_of_mem _ hw')

theorem splitSp_of_no_space {w : List Char} (h : ' ' ∉ w) : splitSp w = [w] := by
  induction w with
  | nil => rfl
  | cons c rest ih =>
    simp only [List.mem_cons] at h
    push_neg at h
    have hc : c ≠ ' ' := fun hc => h.1 hc.symm
    simp only [splitSp, if_neg hc, ih h.2]

theorem splitSp_append_space {w : List Char} (h : ' ' ∉ w) (t : List Char) :
    splitSp (w ++ ' ' :: t) = w :: splitSp t := by
  induction w with
  | nil => simp [splitSp]
  | cons c rest ih =>
    simp only [List.mem_cons] at h
    push_neg at h
    have hc : c ≠ ' ' := fun hc => h.1 hc.symm
    simp only [List.cons_append, splitSp, if_neg hc, List.append_eq, ih h.2]

theorem splitSp_joinSp :
    ∀ ws : List (List Char), ws ≠ [] → (∀ w ∈ ws, ' ' ∉ w) →
      splitSp (joinSp ws) = ws := by
  intro ws
  induction ws with
  | nil => intro h; exact absurd rfl h
  | cons w rest ih =>
    intro _ hws
    cases rest with
    | nil =>
      simp only [joinSp]
      exact splitSp_of_no_space (hws w (List.mem_cons_self _ _))
    | cons x rest₁ =>
      have hj : joinSp (w :: x :: rest₁) = w ++ ' ' :: joinSp (x :: rest₁) := rfl
      rw [hj, splitSp_append_space (hws w (List.mem_cons_self _ _))]
      rw [ih (by simp) fun v hv => hws v (List.mem_cons_of_mem _ hv)]

theorem space_not_mem_cleanWord {w : List Char} (h : ' ' ∉ w) :
    ' ' ∉ cleanWord w := by
  rw [cleanWord]
  split
  · decide
  · exact h

theorem map_eq_self_of_eq {l : List α} {f : α → α} (h : l.map f = l) :
    ∀ x ∈ l, f x = x := by
  induction l with
  | nil => simp
  | cons a as ih =>
    simp only [List.map_cons, List.cons.injEq] at h
    intro x hx
    rcases List.mem_cons.mp hx with rfl | hx'
    · exact h.1
    · exact ih h.2 x hx'

theorem splitSp_cleanBodyL (s : List Char) :
    splitSp (cleanBodyL s) = (splitSp s).map cleanWord := by
  rw [cleanBodyL]
  refine splitSp_joinSp _ ?_ ?_
  · intro h
    exact splitSp_ne_nil s (List.map_eq_nil_iff.mp h)
  · intro w hw
    obtain ⟨v, hv, rfl⟩ := List.mem_map.mp hw
    exact space_not_mem_cleanWord (space_not_mem_splitSp s v hv)

theorem cleanWord_ne_of_bad {w : List Char} (h : lowerWord w ∈ badWords) :
    cleanWord w ≠ w := by
  rw [cleanWord, if_pos h]
  intro heq
  rw [← heq] at h
  revert h
  decide

theorem cleanBodyL_ne_of_bad {s : List Char}
    (h : ∃ w ∈ splitSp s, lowerWord w ∈ badWords) : cleanBodyL s ≠ s := by
  obtain ⟨w, hw, hbad⟩ := h
  intro heq
  have hsplit : (splitSp s).map cleanWord = splitSp s := by
    rw [← splitSp_cleanBodyL, heq]
  exact cleanWord_ne_of_bad hbad (map_eq_self_of_eq hsplit w hw)

theorem reachable_dbA : Reachable dbA := by
  refine Reachable.step initialDB dbA Reachable.init
    (Step.createUser "a@x.com" "d1" (createUserData "a@x.com" "d1" emptyRep).1
      initialDB dbA ?_)
  exact CreateUser_ok_eq dbInv_initial "a@x.com" "d1" (by decide)

theorem reachable_dbB : Reachable dbB := by
  refine Reachable.step dbA dbB reachable_dbA
    (Step.createUser "b@x.com" "d2" (createUserData "b@x.com" "d2" repA).1
      dbA dbB ?_)
  exact CreateUser_ok_eq (reachable_dbInv reachable_dbA) "b@x.com" "d2" (by decide)

theorem reachable_dbC : Reachable dbC := by
  refine Reachable.step dbB dbC reachable_dbB
    (Step.updateUser 1 "b@x.com" "d3"
      (updateUserData 1 "b@x.com" "d3"
        { user := { id := 1, email := "a@x.com" }, password := "d1" } repB).1
      dbB dbC ?_)
  exact UpdateUser_ok_eq (reachable_dbInv reachable_dbB) 1 "b@x.com" "d3"
    { user := { id := 1, email := "a@x.com" }, password := "d1" } (by decide)

theorem reachable_dbT : Reachable dbT := by
  refine Reachable.step initialDB dbT Reachable.init
    (Step.createRefreshToken "tok" 1 60 100
      (createRefreshTokenData "tok" 1 60 100 emptyRep).1 initialDB dbT ?_)
  exact CreateRefreshToken_ok_eq dbInv_initial "tok" 1 60 100 (by decide)

/-- C1: from any reachable store state, a successful CreateChirp
assigns ID lastChirpID + 1, an ID strictly above every stored chirp ID
and never stored before, and advances only the chirp counter; a
successful CreateUser does the same with lastUserID; and every store
operation leaves both counters no smaller than before, so IDs are
strictly increasing within each entity kind, never reused, and the two
counters advance independently. -/
theorem claim1_ids_strictly_increasing (db : DB) (h : Reachable db) :
    (∀ b a c db₁, CreateChirp b a true db = (.ok c, db₁) →
      c.id = db.data.lastChirpID + 1 ∧
      mapLookup db.data.chirps c.id = none ∧
      (∀ p ∈ db.data.chirps, p.1 < c.id) ∧
      db₁.data.lastChirpID = db.data.lastChirpID + 1 ∧
      db₁.data.lastUserID = db.data.lastUserID ∧
      mapLookup db₁.data.chirps c.id = some c) ∧
    (∀ e pw u db₁, CreateUser e pw true db = (.ok u, db₁) →
      u.id = db.data.lastUserID + 1 ∧
      mapLookup db.data.users u.id = none ∧
      (∀ p ∈ db.data.users, p.1 < u.id) ∧
      db₁.data.lastUserID = db.data.lastUserID + 1 ∧
      db₁.data.lastChirpID = db.data.lastChirpID) ∧
    (∀ db₁, Step db db₁ →
      db.data.lastChirpID ≤ db₁.data.lastChirpID ∧
      db.data.lastUserID ≤ db₁.data.lastUserID) := by
  have hinv := reachable_dbInv h
  obtain ⟨hstore, hdisk⟩ := hinv
  refine ⟨?_, ?_, ?_⟩
  · intro b a c db₁ heq
    rw [CreateChirp_ok_eq ⟨hstore, hdisk⟩ b a, Prod.mk.injEq] at heq
    obtain ⟨hc, rfl⟩ := heq
    obtain rfl : (createChirpData b a db.data).1 = c := by simpa using hc
    have hid : (createChirpData b a db.data).1.id = db.data.lastChirpID + 1 := rfl
    refine ⟨rfl, ?_, ?_, rfl, rfl, ?_⟩
    · cases hl : mapLookup db.data.chirps (createChirpData b a db.data).1.id with
      | none => rfl
      | some c₀ =>
        have := hstore.chirpsLe _ (mapLookup_mem hl)
        rw [hid] at this
        omega
    · intro p hp
      have := hstore.chirpsLe p hp
      rw [hid]
      omega
    · exact mapLookup_insert_self _ _ _
  · intro e pw u db₁ heq
    cases hlk : mapLookup db.data.userEmailIndex e with
    | some i =>
      rw [CreateUser_dup_eq ⟨hstore, hdisk⟩ e pw i hlk] at heq
      exact absurd (congrArg Prod.fst heq) (by simp)
    | none =>
      rw [CreateUser_ok_eq ⟨hstore, hdisk⟩ e pw hlk, Prod.mk.injEq] at heq
      obtain ⟨hu, rfl⟩ := heq
      obtain rfl : (createUserData e pw db.data).1 = u := by simpa using hu
      have hid : (createUserData e pw db.data).1.id = db.data.lastUserID + 1 := rfl
      refine ⟨rfl, ?_, ?_, rfl, rfl⟩
      · cases hl : mapLookup db.data.users (createUserData e pw db.data).1.id with
        | none => rfl
        | some u₀ =>
          have := hstore.usersLe _ (mapLookup_mem hl)
          rw [hid] at this
          omega
      · intro p hp
        have := hstore.usersLe p hp
        rw [hid]
        omega
  · intro db₁ hs
    cases hs with
    | createUser e pw u db db₁ heq =>
      cases hlk : mapLookup db.data.userEmailIndex e with
      | some i =>
        rw [CreateUser_dup_eq ⟨hstore, hdisk⟩ e pw i hlk] at heq
        exact absurd (congrArg Prod.fst heq) (by simp)
      | none =>
        rw [CreateUser_ok_eq ⟨hstore, hdisk⟩ e pw hlk, Prod.mk.injEq] at heq
        obtain ⟨-, rfl⟩ := heq
        constructor
        · exact le_refl _
        · simp only [createUserData]
          omega
    | updateUser i e pw u db db₁ heq =>
      cases hlk : mapLookup db.data.users i with
      | none =>
        rw [UpdateUser_notFound_eq ⟨hstore, hdisk⟩ i e pw hlk] at heq
        exact absurd (congrArg Prod.fst heq) (by simp)
      | some w =>
        rw [UpdateUser_ok_eq ⟨hstore, hdisk⟩ i e pw w hlk, Prod.mk.injEq] at heq
        obtain ⟨-, rfl⟩ := heq
        exact ⟨le_refl _, le_refl _⟩
    | createChirp b a c db db₁ heq =>
      rw [CreateChirp_ok_eq ⟨hstore, hdisk⟩ b a, Prod.mk.injEq] at heq
      obtain ⟨-, rfl⟩ := heq
      constructor
      · simp only [createChirpData]
        omega
      · exact le_refl _
    | createRefreshToken t uid ttl now rt db db₁ heq =>
      cases hlk : mapLookup db.data.refreshTokens t with
      | some w =>
        rw [CreateRefreshToken_dup_eq ⟨hstore, hdisk⟩ t uid ttl now w hlk] at heq
        exact absurd (congrArg Prod.fst heq) (by simp)
      | none =>
        rw [CreateRefreshToken_ok_eq ⟨hstore, hdisk⟩ t uid ttl now hlk,
          Prod.mk.injEq] at heq
        obtain ⟨-, rfl⟩ := heq
        exact ⟨le_refl _, le_refl _⟩
    | deleteRefreshToken t db db₁ heq =>
      rw [DeleteRefreshToken_eq ⟨hstore, hdisk⟩ t, Prod.mk.injEq] at heq
      obtain ⟨-, rfl⟩ := heq
      exact ⟨le_refl _, le_refl _⟩

/-- C1 witness: the first chirp created in a fresh store gets ID 1 =
lastChirpID + 1, fresh and recorded. -/
theorem claim1_witness :
    (createChirpData "hello" 7 initialDB.data).1.id =
        initialDB.data.lastChirpID + 1 ∧
    mapLookup initialDB.data.chirps
        (createChirpData "hello" 7 initialDB.data).1.id = none := by
  have h := (claim1_ids_strictly_increasing initialDB Reachable.init).1
    "hello" 7 (createChirpData "hello" 7 initialDB.data).1
    { data := (createChirpData "hello" 7 initialDB.data).2,
      disk := some (encodeDB (createChirpData "hello" 7 initialDB.data).2) }
    (CreateChirp_ok_eq dbInv_initial "hello" 7)
  exact ⟨h.1, h.2.1⟩

/-- C2 (amended): in every reachable state the email index is sound in
the forward direction, an index entry for e pointing at i implies user
i holds email e; and after a successful UpdateUser changing a user
from email a to a different email b, lookup by a is NotFound and
lookup by b returns the updated record.  The reverse direction of the
claimed iff is not an invariant (see the counterexample). -/
theorem claim2_email_index_forward (db : DB) (h : Reachable db) :
    (∀ e i, mapLookup db.data.userEmailIndex e = some i →
      ∃ u, mapLookup db.data.users i = some u ∧ u.user.email = e) ∧
    (∀ uid newE pw u₀ u db₁,
      mapLookup db.data.users uid = some u₀ →
      u₀.user.email ≠ newE →
      UpdateUser uid newE pw true db = (.ok u, db₁) →
      GetAuthUserByEmail db₁.data u₀.user.email = .error .doesNotExist ∧
      GetAuthUserByEmail db₁.data newE =
        .ok { user := { id := uid, email := newE }, password := pw }) := by
  have hinv := reachable_dbInv h
  obtain ⟨hstore, hdisk⟩ := hinv
  refine ⟨hstore.emailForward, ?_⟩
  intro uid newE pw u₀ u db₁ hu₀ hne heq
  have huid : u₀.user.id = uid := hstore.usersKeyID (uid, u₀) (mapLookup_mem hu₀)
  rw [UpdateUser_ok_eq ⟨hstore, hdisk⟩ uid newE pw u₀ hu₀, Prod.mk.injEq] at heq
  obtain ⟨-, rfl⟩ := heq
  constructor
  · rw [GetAuthUserByEmail]
    simp only [updateUserData]
    rw [mapLookup_insert_ne _ _ _ _ hne, mapLookup_delete_self]
  · rw [GetAuthUserByEmail]
    simp only [updateUserData]
    rw [mapLookup_insert_self, huid]
    simp only [mapLookup_insert_self]

/-- C2 counterexample: the state reached by creating users a@x.com and
b@x.com and then updating user 1 to the already-taken email b@x.com is
reachable, yet the index maps b@x.com to user 1 while user 2 also
holds b@x.com, so the claimed two-way correspondence fails. -/
theorem claim2_counterexample :
    Reachable dbC ∧
    mapLookup dbC.data.userEmailIndex "b@x.com" = some 1 ∧
    mapLookup dbC.data.users 2 =
      some { user := { id := 2, email := "b@x.com" }, password := "d2" } ∧
    ¬ EmailIndexConsistent dbC.data := by
  refine ⟨reachable_dbC, by decide, by decide, ?_⟩
  intro hcons
  have h2 := (hcons "b@x.com" 2).mpr
    ⟨{ user := { id := 2, email := "b@x.com" }, password := "d2" },
     by decide, rfl⟩
  have : mapLookup dbC.data.userEmailIndex "b@x.com" = some 1 := by decide
  rw [this] at h2
  exact absurd h2 (by decide)

/-- C2 witness: in the reachable single-user state, the index entry
for a@x.com is backed by user 1 holding that email. -/
theorem claim2_witness :
    ∃ u, mapLookup dbA.data.users 1 = some u ∧ u.user.email = "a@x.com" :=
  (claim2_email_index_forward dbA reachable_dbA).1 "a@x.com" 1 (by decide)

/-- C3: invoking CreateUser while the email is already in the email
index of a reachable store returns AlreadyExists with the whole store,
including the first user record and its digest, exactly as before. -/
theorem claim3_duplicate_email_rejected (db : DB) (h : Reachable db)
    (e pw : String) (i : Int)
    (hdup : mapLookup db.data.userEmailIndex e = some i) :
    CreateUser e pw true db = (.error .alreadyExists, db) ∧
    (∀ x, GetAuthUserByEmail ((CreateUser e pw true db).2).data x =
      GetAuthUserByEmail db.data x) := by
  have heq := CreateUser_dup_eq (reachable_dbInv h) e pw i hdup
  refine ⟨heq, ?_⟩
  intro x
  rw [heq]

/-- C3 witness: creating a@x.com twice leaves the store of dbA alone
and reports AlreadyExists. -/
theorem claim3_witness :
    CreateUser "a@x.com" "d2" true dbA = (.error .alreadyExists, dbA) :=
  (claim3_duplicate_email_rejected dbA reachable_dbA "a@x.com" "d2" 1
    (by decide)).1

/-- C4: refresh-token validation (GetRefreshToken plus the expiry
check of refreshTokenHandler) answers NotFound for an absent token,
Expired, an outcome distinct from NotFound, for a stored token whose
expiration lies before now, and never mutates the store: the state
component it returns is the input state and any stored token entry,
expired or not, is still present afterwards. -/
theorem claim4_validate_classification (d : DBRepresentation) (t : String)
    (now : Int) :
    (mapLookup d.refreshTokens t = none →
      validateRefreshToken d t now = (.notFound, d)) ∧
    (∀ rt, mapLookup d.refreshTokens t = some rt → rt.expiration < now →
      validateRefreshToken d t now = (.expired, d) ∧
      ValidateResult.expired ≠ ValidateResult.notFound) ∧
    (validateRefreshToken d t now).2 = d ∧
    (∀ rt, mapLookup d.refreshTokens t = some rt →
      mapLookup ((validateRefreshToken d t now).2).refreshTokens t = some rt) := by
  refine ⟨?_, ?_, ?_, ?_⟩
  · intro hmiss
    simp [validateRefreshToken, GetRefreshToken, hmiss]
  · intro rt hrt hexp
    have hlt : rt.expiration < now := hexp
    refine ⟨?_, by decide⟩
    simp [validateRefreshToken, GetRefreshToken, hrt, hlt]
  · rw [validateRefreshToken]
    cases GetRefreshToken d t with
    | error e => rfl
    | ok rt =>
      by_cases hlt : rt.expiration < now
      · simp [hlt]
      · simp [hlt]
  · intro rt hrt
    rw [validateRefreshToken]
    cases hg : GetRefreshToken d t with
    | error e => exact hrt
    | ok rt₁ =>
      by_cases hlt : rt₁.expiration < now
      · simp only [if_pos hlt]
        exact hrt
      · simp only [if_neg hlt]
        exact hrt

/-- C4 witness: in the token store, validating at time 200 the token
that expired at 160 answers Expired while the entry stays stored, and
validating a missing token answers NotFound. -/
theorem claim4_witness :
    validateRefreshToken repT "tok" 200 = (.expired, repT) ∧
    validateRefreshToken repT "other" 200 = (.notFound, repT) ∧
    mapLookup ((validateRefreshToken repT "tok" 200).2).refreshTokens "tok" =
      some { token := "tok", userID := 1, expiration := 160 } := by
  refine ⟨?_, ?_, ?_⟩
  · exact ((claim4_validate_classification repT "tok" 200).2.1
      { token := "tok", userID := 1, expiration := 160 } (by decide) (by decide)).1
  · exact (claim4_validate_classification repT "other" 200).1 (by decide)
  · exact (claim4_validate_classification repT "tok" 200).2.2.2
      { token := "tok", userID := 1, expiration := 160 } (by decide)

/-- C5: in every reachable store there is at most one refresh-token
entry per token string, and CreateRefreshToken for a token string that
is already stored returns AlreadyExists with the store, including the
existing entry, unchanged. -/
theorem claim5_token_collision_rejected (db : DB) (h : Reachable db) :
    (mapKeys db.data.refreshTokens).Nodup ∧
    (∀ t uid ttl now rt, mapLookup db.data.refreshTokens t = some rt →
      CreateRefreshToken t uid ttl now true db = (.error .alreadyExists, db)) := by
  have hinv := reachable_dbInv h
  refine ⟨hinv.1.wf.2.2.2, ?_⟩
  intro t uid ttl now rt hdup
  exact CreateRefreshToken_dup_eq hinv t uid ttl now rt hdup

/-- C5 witness: reissuing the stored token tok is rejected and leaves
the store untouched. -/
theorem claim5_witness :
    CreateRefreshToken "tok" 2 999 500 true dbT = (.error .alreadyExists, dbT) :=
  (claim5_token_collision_rejected dbT reachable_dbT).2 "tok" 2 999 500
    { token := "tok", userID := 1, expiration := 160 } (by decide)

/-- C6: marshalling any well-formed snapshot with writeDB and decoding
the written document into a fresh store with loadDB reproduces the
snapshot exactly, so GetChirps, GetUsers and GetAuthUserByEmail on the
reloaded store agree with the original on every argument. -/
theorem claim6_round_trip (d : DBRepresentation) (h : WFMaps d)
    (dsk : Option Json) :
    writeDB { data := d, disk := dsk } true =
      .ok { data := d, disk := some (encodeDB d) } ∧
    loadDB { data := emptyRep, disk := some (encodeDB d) } = .ok d ∧
    (∀ d₁, loadDB { data := emptyRep, disk := some (encodeDB d) } = .ok d₁ →
      GetChirps d₁ = GetChirps d ∧ GetUsers d₁ = GetUsers d ∧
      ∀ e, GetAuthUserByEmail d₁ e = GetAuthUserByEmail d e) := by
  refine ⟨rfl, loadDB_fresh h, ?_⟩
  intro d₁ h₁
  rw [loadDB_fresh h] at h₁
  obtain rfl : d = d₁ := by simpa using h₁
  exact ⟨rfl, rfl, fun e => rfl⟩

/-- C6 witness: the two-user snapshot survives the write and fresh
reload unchanged. -/
theorem claim6_witness :
    loadDB { data := emptyRep, disk := some (encodeDB repB) } = .ok repB ∧
    (∀ e, GetAuthUserByEmail repB e = GetAuthUserByEmail repB e) := by
  refine ⟨(claim6_round_trip repB (by decide) none).2.1, ?_⟩
  intro e
  exact ((claim6_round_trip repB (by decide) none).2.2 repB
    (claim6_round_trip repB (by decide) none).2.1).2.2 e

/-- C7: when the persist step fails, CreateChirp and CreateUser return
the I/O error while the in-memory snapshot keeps the new record and
the advanced counter, and the backing file keeps its old contents - no
rollback happens. -/
theorem claim7_persist_failure_keeps_mutation (db : DB) (h : Reachable db) :
    (∀ b a, CreateChirp b a false db =
      (.error .ioError,
       { data := (createChirpData b a db.data).2, disk := db.disk }) ∧
      mapLookup (createChirpData b a db.data).2.chirps
          (db.data.lastChirpID + 1) =
        some { id := db.data.lastChirpID + 1, authorID := a, body := b } ∧
      (createChirpData b a db.data).2.lastChirpID = db.data.lastChirpID + 1) ∧
    (∀ e pw, mapLookup db.data.userEmailIndex e = none →
      CreateUser e pw false db =
      (.error .ioError,
       { data := (createUserData e pw db.data).2, disk := db.disk }) ∧
      mapLookup (createUserData e pw db.data).2.users (db.data.lastUserID + 1) =
        some { user := { id := db.data.lastUserID + 1, email := e },
               password := pw } ∧
      (createUserData e pw db.data).2.lastUserID = db.data.lastUserID + 1) := by
  have hinv := reachable_dbInv h
  constructor
  · intro b a
    refine ⟨?_, ?_, rfl⟩
    · simp only [CreateChirp, loadDB_self hinv, writeDB, Bool.false_eq_true,
        if_false]
    · exact mapLookup_insert_self _ _ _
  · intro e pw hfree
    refine ⟨?_, ?_, rfl⟩
    · simp only [CreateUser, loadDB_self hinv, hfree, writeDB,
        Bool.false_eq_true, if_false]
    · exact mapLookup_insert_self _ _ _

/-- C7 witness: a failed persist of the first chirp in a fresh store
reports the error yet the chirp sits in memory under ID 1 and the
counter reads 1, while the file still holds the empty snapshot. -/
theorem claim7_witness :
    CreateChirp "hi" 3 false initialDB =
      (.error .ioError,
       { data := (createChirpData "hi" 3 initialDB.data).2,
         disk := some (encodeDB emptyRep) }) ∧
    mapLookup (createChirpData "hi" 3 initialDB.data).2.chirps 1 =
      some { id := 1, authorID := 3, body := "hi" } := by
  have h := (claim7_persist_failure_keeps_mutation initialDB Reachable.init).1
    "hi" 3
  exact ⟨h.1, h.2.1⟩

/-- C8 counterexample: reloading a store whose file was externally
reduced to the empty snapshot does not make memory equal the decoded
file contents: the fresh decode of the file has no chirp 1, yet after
loadDB the in-memory snapshot still stores it. -/
theorem claim8_counterexample :
    loadDB dbExt = .ok repExtLoaded ∧
    mapLookup repExtLoaded.chirps 1 =
      some { id := 1, authorID := 1, body := "hi" } ∧
    decodeDBInto emptyRep (encodeDB emptyRep) = some emptyRep ∧
    mapLookup emptyRep.chirps 1 = none := by
  refine ⟨?_, by decide, by decide, by decide⟩
  decide

/-- C8 (amended): every mutating operation reloads the file before
mutating, but Decoder.Decode merges into the existing snapshot: the
counters and every entry present in the file overwrite memory, while
in-memory map entries absent from the file are retained, so external
additions and edits are reconciled and external deletions are not;
the mutation is then applied to the merged state, as CreateChirp
assigning the file counter plus one and DeleteRefreshToken deleting
from the merged token map show. -/
theorem claim8_reload_merges (d₁ d₂ : DBRepresentation) (h : WFMaps d₂) :
    loadDB { data := d₁, disk := some (encodeDB d₂) } = .ok (mergeRep d₁ d₂) ∧
    (mergeRep d₁ d₂).lastChirpID = d₂.lastChirpID ∧
    (mergeRep d₁ d₂).lastUserID = d₂.lastUserID ∧
    (∀ k v, mapLookup d₂.chirps k = some v →
      mapLookup (mergeRep d₁ d₂).chirps k = some v) ∧
    (∀ k, mapLookup d₂.chirps k = none →
      mapLookup (mergeRep d₁ d₂).chirps k = mapLookup d₁.chirps k) ∧
    (∀ t v, mapLookup d₂.refreshTokens t = some v →
      mapLookup (mergeRep d₁ d₂).refreshTokens t = some v) ∧
    (∀ t, mapLookup d₂.refreshTokens t = none →
      mapLookup (mergeRep d₁ d₂).refreshTokens t = mapLookup d₁.refreshTokens t) ∧
    (∀ b a, CreateChirp b a true { data := d₁, disk := some (encodeDB d₂) } =
      (.ok (createChirpData b a (mergeRep d₁ d₂)).1,
       { data := (createChirpData b a (mergeRep d₁ d₂)).2,
         disk := some (encodeDB (createChirpData b a (mergeRep d₁ d₂)).2) })) ∧
    (∀ b a, (createChirpData b a (mergeRep d₁ d₂)).1.id = d₂.lastChirpID + 1) ∧
    (∀ t, DeleteRefreshToken t true { data := d₁, disk := some (encodeDB d₂) } =
      (.ok (),
       { data := deleteRefreshTokenData t (mergeRep d₁ d₂),
         disk := some (encodeDB (deleteRefreshTokenData t (mergeRep d₁ d₂))) })) := by
  obtain ⟨hc, hu, he, ht⟩ := h
  refine ⟨?_, rfl, rfl, ?_, ?_, ?_, ?_, ?_, ?_, ?_⟩
  · simp only [loadDB, decodeDBInto_encodeDB]
  · intro k v hv
    exact mapLookup_foldIns_of_some hc hv _
  · intro k hk
    exact mapLookup_foldIns_of_none hk _
  · intro t v hv
    exact mapLookup_foldIns_of_some ht hv _
  · intro t hmiss
    exact mapLookup_foldIns_of_none hmiss _
  · intro b a
    simp only [CreateChirp, loadDB, decodeDBInto_encodeDB, writeDB, if_true]
  · intro b a
    rfl
  · intro t
    simp only [DeleteRefreshToken, loadDB, decodeDBInto_encodeDB, writeDB, if_true]

/-- C8 witness: loading the externally truncated file of dbExt merges
it into memory; the chirp absent from the file keeps its in-memory
entry. -/
theorem claim8_witness :
    loadDB { data := repChirp1, disk := some (encodeDB emptyRep) } =
      .ok (mergeRep repChirp1 emptyRep) ∧
    mapLookup (mergeRep repChirp1 emptyRep).chirps 1 =
      mapLookup repChirp1.chirps 1 := by
  refine ⟨(claim8_reload_merges repChirp1 emptyRep (by decide)).1, ?_⟩
  exact (claim8_reload_merges repChirp1 emptyRep (by decide)).2.2.2.2.1 1
    (by decide)

/-- C9: for any snapshot whose stored records carry pairwise distinct
IDs, GetChirps and GetUsers return exactly the stored records, as a
permutation of the map values, in strictly ascending ID order,
whatever order the underlying map presents them in. -/
theorem claim9_lists_sorted (d : DBRepresentation)
    (hc : (d.chirps.map (fun p => p.2.id)).Nodup)
    (hu : (d.users.map (fun p => p.2.user.id)).Nodup) :
    (GetChirps d).Pairwise (fun x y => x.id < y.id) ∧
    (GetChirps d).Perm (d.chirps.map (fun p => p.2)) ∧
    (GetUsers d).Pairwise (fun x y => x.id < y.id) ∧
    (GetUsers d).Perm (d.users.map (fun p => p.2.user)) := by
  refine ⟨?_, sortByKey_perm _ _, ?_, sortByKey_perm _ _⟩
  · apply sortByKey_pairwise_lt
    rw [List.map_map]
    exact hc
  · apply sortByKey_pairwise_lt
    rw [List.map_map]
    exact hu

/-- C9 witness: the scrambled store lists its chirps in creation-ID
order 1, 2, 3 - bodies c, a, b - not alphabetically and not in map
order. -/
theorem claim9_witness :
    GetChirps repScrambled =
      [{ id := 1, authorID := 1, body := "c" },
       { id := 2, authorID := 1, body := "a" },
       { id := 3, authorID := 1, body := "b" }] ∧
    (GetChirps repScrambled).Pairwise (fun x y => x.id < y.id) :=
  ⟨by decide, (claim9_lists_sorted repScrambled (by decide) (by decide)).1⟩

/-- C10: createChirpHandler stores and returns the cleanBody transform
of the submitted body: the body splits on single spaces, each word
whose lower-cased form is kerfuffle, sharbert or fornax becomes four
asterisks, all other words and the word count are unchanged, and a
body containing such a word is stored differently from its input. -/
theorem claim10_clean_body (db : DB) (h : Reachable db) (body : String)
    (userID : Int) (hne : body ≠ "") (hlen : body.utf8ByteSize ≤ 140) :
    (∃ c db₁, createChirpHandler body userID true db = (.created c, db₁) ∧
      c.body = cleanBody body ∧
      mapLookup db₁.data.chirps c.id = some c) ∧
    splitSp (cleanBody body).data = (splitSp body.data).map cleanWord ∧
    (splitSp (cleanBody body).data).length = (splitSp body.data).length ∧
    (∀ w ∈ splitSp body.data, lowerWord w ∉ badWords → cleanWord w = w) ∧
    ((∃ w ∈ splitSp body.data, lowerWord w ∈ badWords) →
      cleanBody body ≠ body) := by
  have hinv := reachable_dbInv h
  refine ⟨?_, ?_, ?_, ?_, ?_⟩
  · refine ⟨(createChirpData (cleanBody body) userID db.data).1,
      { data := (createChirpData (cleanBody body) userID db.data).2,
        disk := some (encodeDB (createChirpData (cleanBody body) userID db.data).2) },
      ?_, rfl, mapLookup_insert_self _ _ _⟩
    rw [createChirpHandler, if_neg hne, if_neg (by omega),
      CreateChirp_ok_eq hinv (cleanBody body) userID]
  · exact splitSp_cleanBodyL body.data
  · show (splitSp (cleanBodyL body.data)).length = (splitSp body.data).length
    rw [splitSp_cleanBodyL, List.length_map]
  · intro w hw hbad
    rw [cleanWord, if_neg hbad]
  · intro hbad heq
    exact cleanBodyL_ne_of_bad hbad (congrArg String.data heq)

/-- C10 witness: the body with the profanities Sharbert and kerfuffle
is created with both words masked, and differs from the input; a
kerfuffle spelled with the KELVIN SIGN, which strings.ToLower turns
into k, is masked as well. -/
theorem claim10_witness :
    (∃ c db₁,
      createChirpHandler "Sharbert is a kerfuffle" 5 true initialDB =
        (.created c, db₁) ∧
      c.body = cleanBody "Sharbert is a kerfuffle" ∧
      mapLookup db₁.data.chirps c.id = some c) ∧
    cleanBody "Sharbert is a kerfuffle" ≠ "Sharbert is a kerfuffle" ∧
    cleanBody "Sharbert is a kerfuffle" = "**** is a ****" ∧
    cleanBody "a Kerfuffle happened" = "a **** happened" := by
  refine ⟨?_, ?_, by decide, by decide⟩
  · exact (claim10_clean_body initialDB Reachable.init
      "Sharbert is a kerfuffle" 5 (by decide) (by decide)).1
  · exact (claim10_clean_body initialDB Reachable.init
      "Sharbert is a kerfuffle" 5 (by decide) (by decide)).2.2.2.2 (by decide)
